import Mathlib

/-!
Verification of the `delaunay3d` crate (`src/lib.rs`).

The source operates on `f64` coordinates wrapped in `OrderedFloat`; we embed
coordinates as exact rationals `ℚ`, so every comparison and arithmetic
operation of the source is translated literally (squaring for `powf(2.)`,
`0.01` as `1/100`, total-order `max`).  Rust's `HashSet<Edge>` becomes
`Finset Edge` (the `Edge` type derives structural equality and hashing in
the source, and `DecidableEq` here).  The external collaborator
`robust::insphere` is not part of this repository; it is modelled from the
spec (§4.3) as the exact sign of the in-sphere determinant.  The driver
`tetrahedralize` is stated parametrically in that predicate
(`tetrahedralizeWith`) and instantiated at the modelled predicate.
-/

/-- Embedding of `Vertex`: a 3D point; the source stores
`Coord3D<OrderedFloat<f64>>`, flattened here to three rational coordinates. -/
structure Vertex where
  x : ℚ
  y : ℚ
  z : ℚ
deriving DecidableEq, Repr

instance : Inhabited Vertex := ⟨⟨0, 0, 0⟩⟩

/-- Embedding of `Vertex::new`. -/
def Vertex.new (x y z : ℚ) : Vertex := ⟨x, y, z⟩

/-- Embedding of `Vertex::almost_equal`: squared Euclidean distance strictly
below the fixed tolerance `0.01`. -/
def Vertex.almost_equal (s v : Vertex) : Bool :=
  decide ((s.x - v.x) ^ 2 + (s.y - v.y) ^ 2 + (s.z - v.z) ^ 2 < (1 / 100 : ℚ))

/-- Embedding of `Triangle`: three vertices plus the transient invalidation
marker `is_bad`. -/
structure Triangle where
  a : Vertex
  b : Vertex
  c : Vertex
  is_bad : Bool
deriving DecidableEq, Repr

/-- Embedding of `Triangle::new` (marker starts `false`). -/
def Triangle.new (a b c : Vertex) : Triangle := ⟨a, b, c, false⟩

/-- Embedding of `Triangle::almost_equal`: each vertex of `s` must be
fuzzy-equal to some vertex of `t`. -/
def Triangle.almost_equal (s t : Triangle) : Bool :=
  (s.a.almost_equal t.a || s.a.almost_equal t.b || s.a.almost_equal t.c)
    && (s.b.almost_equal t.a || s.b.almost_equal t.b || s.b.almost_equal t.c)
    && (s.c.almost_equal t.a || s.c.almost_equal t.b || s.c.almost_equal t.c)

/-- Embedding of `Tetrahedron`: four vertices plus the invalidation marker. -/
structure Tetrahedron where
  a : Vertex
  b : Vertex
  c : Vertex
  d : Vertex
  is_bad : Bool
deriving DecidableEq, Repr

/-- Embedding of `Tetrahedron::new` (marker starts `false`). -/
def Tetrahedron.new (a b c d : Vertex) : Tetrahedron := ⟨a, b, c, d, false⟩

/-- Embedding of `Tetrahedron::contains_vertex`. -/
def Tetrahedron.contains_vertex (t : Tetrahedron) (v : Vertex) : Bool :=
  v.almost_equal t.a || v.almost_equal t.b || v.almost_equal t.c || v.almost_equal t.d

/-- Embedding of `Edge`: an ordered pair of vertices; the source derives
`Hash, Eq, PartialEq` structurally (field-order sensitive), matched here by
derived `DecidableEq`. -/
structure Edge where
  a : Vertex
  b : Vertex
deriving DecidableEq, Repr

/-- Embedding of `Edge::new`. -/
def Edge.new (a b : Vertex) : Edge := ⟨a, b⟩

/-- A 3x3 determinant, written out. -/
def det3 (a11 a12 a13 a21 a22 a23 a31 a32 a33 : ℚ) : ℚ :=
  a11 * (a22 * a33 - a23 * a32)
    - a12 * (a21 * a33 - a23 * a31)
    + a13 * (a21 * a32 - a22 * a31)

/-- Orientation determinant of a tetrahedron `a b c d`: the determinant of
the 3x3 matrix of edge vectors out of `a`. -/
def orient3 (a b c d : Vertex) : ℚ :=
  det3 (b.x - a.x) (b.y - a.y) (b.z - a.z)
       (c.x - a.x) (c.y - a.y) (c.z - a.z)
       (d.x - a.x) (d.y - a.y) (d.z - a.z)

/-- The classical 4x4 in-sphere determinant with rows `p - e` extended by the
squared norm, expanded along the fourth column. -/
def inspDet (a b c d e : Vertex) : ℚ :=
  let r := fun (p : Vertex) => (p.x - e.x, p.y - e.y, p.z - e.z,
    (p.x - e.x) ^ 2 + (p.y - e.y) ^ 2 + (p.z - e.z) ^ 2)
  let ra := r a
  let rb := r b
  let rc := r c
  let rd := r d
  ra.2.2.2 * det3 rb.1 rb.2.1 rb.2.2.1 rc.1 rc.2.1 rc.2.2.1 rd.1 rd.2.1 rd.2.2.1
    - rb.2.2.2 * det3 ra.1 ra.2.1 ra.2.2.1 rc.1 rc.2.1 rc.2.2.1 rd.1 rd.2.1 rd.2.2.1
    + rc.2.2.2 * det3 ra.1 ra.2.1 ra.2.2.1 rb.1 rb.2.1 rb.2.2.1 rd.1 rd.2.1 rd.2.2.1
    - rd.2.2.2 * det3 ra.1 ra.2.1 ra.2.2.1 rb.1 rb.2.1 rb.2.2.1 rc.1 rc.2.1 rc.2.2.1

/-- Modelled from the spec: the external collaborator `robust::insphere`
(crate `robust`, not part of this repository).  Per §4.3 the driver consumes
only the sign, and a positive sign means the query point lies strictly inside
the circumsphere of the tetrahedron.  Multiplying the in-sphere determinant
by the orientation determinant yields a value whose sign is positive exactly
when `e` is strictly inside the circumsphere of a non-degenerate `a b c d`,
independent of the orientation in which the four vertices are listed. -/
def insphereQ (a b c d e : Vertex) : ℚ :=
  inspDet a b c d e * orient3 a b c d

/-- Embedding of `Tetrahedron::in_circumsphere`: strict sign test of the
modelled predicate. -/
def Tetrahedron.in_circumsphere (t : Tetrahedron) (v : Vertex) : Bool :=
  decide (0 < insphereQ t.a t.b t.c t.d v)

/-- The six axis-aligned bounding-box accumulators of
`make_super_tetrahedron` (the source keeps them as six mutable locals). -/
structure BBox where
  x_min : ℚ
  y_min : ℚ
  z_min : ℚ
  x_max : ℚ
  y_max : ℚ
  z_max : ℚ
deriving DecidableEq, Repr

/-- The source's `if p < lo { lo = p } else if p > hi { hi = p }` update of
one axis's running bounds. -/
def updMinMax (mn mx p : ℚ) : ℚ × ℚ :=
  if p < mn then (p, mx) else if p > mx then (mn, p) else (mn, mx)

/-- One iteration of the bounding-box loop of `make_super_tetrahedron`: the
three independent per-axis updates of the six accumulators. -/
def bboxUpd (b : BBox) (v : Vertex) : BBox :=
  let px := updMinMax b.x_min b.x_max v.x
  let py := updMinMax b.y_min b.y_max v.y
  let pz := updMinMax b.z_min b.z_max v.z
  ⟨px.1, py.1, pz.1, px.2, py.2, pz.2⟩

/-- Embedding of `make_super_tetrahedron`.  The source indexes `vertices[0]`
unconditionally; it is only ever called on a non-empty slice, and the `[]`
branch here returns a junk cell (the fallible embedding
`make_super_tetrahedronChecked` models the panic instead). -/
def make_super_tetrahedron : List Vertex → Tetrahedron
  | [] => Tetrahedron.new default default default default
  | v :: rest =>
    let b := rest.foldl bboxUpd ⟨v.x, v.y, v.z, v.x, v.y, v.z⟩
    let dx := b.x_max - b.x_min
    let dy := b.y_max - b.y_min
    let dz := b.z_max - b.z_min
    let d_max := max dx (max dy dz) * 2
    Tetrahedron.new
      ⟨b.x_min - 1, b.y_min - 1, b.z_min - 1⟩
      ⟨b.x_max + d_max, b.y_min - 1, b.z_min - 1⟩
      ⟨b.x_min - 1, b.y_max + d_max, b.z_min - 1⟩
      ⟨b.x_min - 1, b.y_min - 1, b.z_max + d_max⟩

/-- Set the `is_bad` marker of a triangle. -/
def flagT (t : Triangle) : Triangle := { t with is_bad := true }

/-- One comparison of the duplicate-triangle loop: if `triangles[i]` and
`triangles[j]` are fuzzy-equal, both are marked `is_bad`. -/
def markIfDup (l : List Triangle) (i j : Nat) : List Triangle :=
  match l[i]?, l[j]? with
  | some ti, some tj =>
    if ti.almost_equal tj then (l.set i (flagT ti)).set j (flagT tj) else l
  | _, _ => l

/-- Embedding of the duplicate-triangle marking loops
`for i in 0..triangles.len() { for j in i..triangles.len() { .. } }`. -/
def dedup (l : List Triangle) : List Triangle :=
  (List.range l.length).foldl
    (fun acc i => ((List.range l.length).drop i).foldl (fun m j => markIfDup m i j) acc) l

/-- The four faces pushed for a violated tetrahedron:
`(a,b,c), (a,b,d), (a,c,d), (b,c,d)`. -/
def facesOf (t : Tetrahedron) : List Triangle :=
  [Triangle.new t.a t.b t.c, Triangle.new t.a t.b t.d,
   Triangle.new t.a t.c t.d, Triangle.new t.b t.c t.d]

/-- Body of `for mut t in &mut tetrahedrons { .. }` inside one insertion
step: test the circumsphere, mark and push faces on violation, then run the
duplicate-marking loops over the triangle list accumulated so far. -/
def stepAux (insph : Tetrahedron → Vertex → Bool) (v : Vertex)
    (acc : List Tetrahedron × List Triangle) (t : Tetrahedron) :
    List Tetrahedron × List Triangle :=
  let p := if insph t v then ({ t with is_bad := true }, acc.2 ++ facesOf t)
    else (t, acc.2)
  (acc.1 ++ [p.1], dedup p.2)

/-- The tetrahedron list after the per-cell loop of one insertion step. -/
def stepTets (insph : Tetrahedron → Vertex → Bool) (tets : List Tetrahedron)
    (v : Vertex) : List Tetrahedron :=
  (tets.foldl (stepAux insph v) ([], [])).1

/-- The candidate-triangle list after the per-cell loop of one insertion
step. -/
def stepTris (insph : Tetrahedron → Vertex → Bool) (tets : List Tetrahedron)
    (v : Vertex) : List Triangle :=
  (tets.foldl (stepAux insph v) ([], [])).2

/-- One full insertion step of `tetrahedralize`: run the per-cell loop, then
`filter(|t| t.is_bad)` on both lists as written in the source, then build a
new tetrahedron from every retained triangle and the inserted vertex. -/
def step (insph : Tetrahedron → Vertex → Bool) (tets : List Tetrahedron)
    (v : Vertex) : List Tetrahedron :=
  (stepTets insph tets v).filter (fun t => t.is_bad)
    ++ ((stepTris insph tets v).filter (fun tr => tr.is_bad)).map
        (fun tr => Tetrahedron.new tr.a tr.b tr.c v)

/-- The six edges inserted for one surviving tetrahedron:
`(a,b), (b,c), (c,a), (d,a), (d,b), (d,c)`. -/
def sixEdges (t : Tetrahedron) : List Edge :=
  [Edge.new t.a t.b, Edge.new t.b t.c, Edge.new t.c t.a,
   Edge.new t.d t.a, Edge.new t.d t.b, Edge.new t.d t.c]

/-- Embedding of `tetrahedralize`, parametric in the in-sphere predicate
(the external collaborator of §4.3/§6). -/
def tetrahedralizeWith (insph : Tetrahedron → Vertex → Bool)
    (vertices : List Vertex) : Option (Finset Edge) :=
  match vertices with
  | [] => none
  | _ :: _ =>
    let st := make_super_tetrahedron vertices
    let tets := vertices.foldl (step insph) [st]
    let final := tets.filter (fun t =>
      !(t.contains_vertex st.a || t.contains_vertex st.b
        || t.contains_vertex st.c || t.contains_vertex st.d))
    some (final.foldl (fun s t => (sixEdges t).foldl (fun s2 e => insert e s2) s) ∅)

/-- The public `tetrahedralize`, at the modelled exact in-sphere predicate. -/
def tetrahedralize (vertices : List Vertex) : Option (Finset Edge) :=
  tetrahedralizeWith Tetrahedron.in_circumsphere vertices

/-- Strict interior membership for the tetrahedron `t` (used to state the
containment guarantee of §4.2): `p` lies strictly on the same side of each
face plane as the opposite vertex. -/
def strictlyInsideTet (t : Tetrahedron) (p : Vertex) : Prop :=
  0 < orient3 t.a t.b t.c p * orient3 t.a t.b t.c t.d
    ∧ 0 < orient3 t.a t.b t.d p * orient3 t.a t.b t.d t.c
    ∧ 0 < orient3 t.a t.c t.d p * orient3 t.a t.c t.d t.b
    ∧ 0 < orient3 t.b t.c t.d p * orient3 t.b t.c t.d t.a

instance (t : Tetrahedron) (p : Vertex) : Decidable (strictlyInsideTet t p) := by
  unfold strictlyInsideTet; infer_instance

/-- Follows the wording of claim C3 (and spec §4.2) for comparison with the
source: the bounding cell whose three non-corner vertices are offset from the
MINIMUM corner by `d` along one axis and by `-1` on the other two. -/
def superTetraSpecC3 : List Vertex → Tetrahedron
  | [] => Tetrahedron.new default default default default
  | v :: rest =>
    let b := rest.foldl bboxUpd ⟨v.x, v.y, v.z, v.x, v.y, v.z⟩
    let dx := b.x_max - b.x_min
    let dy := b.y_max - b.y_min
    let dz := b.z_max - b.z_min
    let d := max dx (max dy dz) * 2
    Tetrahedron.new
      ⟨b.x_min - 1, b.y_min - 1, b.z_min - 1⟩
      ⟨b.x_min + d, b.y_min - 1, b.z_min - 1⟩
      ⟨b.x_min - 1, b.y_min + d, b.z_min - 1⟩
      ⟨b.x_min - 1, b.y_min - 1, b.z_min + d⟩

/-- The marking applied to one tetrahedron by the circumsphere scan of an
insertion step (used to characterise `stepTets`). -/
def markIf (insph : Tetrahedron → Vertex → Bool) (v : Vertex) (t : Tetrahedron) : Tetrahedron :=
  if insph t v then { t with is_bad := true } else t

/-- The faces contributed to the candidate list by the violated cells of one
insertion step, in scan order (used to characterise `stepTris`). -/
def badFaces (insph : Tetrahedron → Vertex → Bool) (v : Vertex)
    (tets : List Tetrahedron) : List Triangle :=
  tets.flatMap (fun t => if insph t v then facesOf t else [])

/-- The four vertices of a tetrahedron as a list. -/
def tetVerts (t : Tetrahedron) : List Vertex := [t.a, t.b, t.c, t.d]

/-- Fallible variant of `make_super_tetrahedron`: `none` models the panic of
the unchecked `vertices[0]` on an empty slice; on non-empty input it is the
same computation. -/
def make_super_tetrahedronChecked : List Vertex → Option Tetrahedron
  | [] => none
  | v :: rest => some (make_super_tetrahedron (v :: rest))

/-- Fallible variant of `markIfDup`: `none` models the panic of
`triangles[i]` / `triangles[j]` when an index is out of bounds. -/
def markIfDupChecked (l : List Triangle) (i j : Nat) : Option (List Triangle) :=
  match l[i]?, l[j]? with
  | some ti, some tj =>
    some (if ti.almost_equal tj then (l.set i (flagT ti)).set j (flagT tj) else l)
  | _, _ => none

/-- Fallible variant of `dedup`, threading the possible index panic through
both loops. -/
def dedupChecked (l : List Triangle) : Option (List Triangle) :=
  (List.range l.length).foldl
    (fun acc i => ((List.range l.length).drop i).foldl
      (fun acc2 j => acc2.bind (fun m => markIfDupChecked m i j)) acc) (some l)

/-- Fallible variant of `stepAux`. -/
def stepAuxChecked (insph : Tetrahedron → Vertex → Bool) (v : Vertex)
    (acc : Option (List Tetrahedron × List Triangle)) (t : Tetrahedron) :
    Option (List Tetrahedron × List Triangle) :=
  acc.bind (fun a =>
    let p := if insph t v then ({ t with is_bad := true }, a.2 ++ facesOf t) else (t, a.2)
    (dedupChecked p.2).map (fun d => (a.1 ++ [p.1], d)))

/-- Fallible variant of `step`. -/
def stepChecked (insph : Tetrahedron → Vertex → Bool) (tets : List Tetrahedron)
    (v : Vertex) : Option (List Tetrahedron) :=
  (tets.foldl (stepAuxChecked insph v) (some ([], []))).map (fun pr =>
    pr.1.filter (fun t => t.is_bad)
      ++ (pr.2.filter (fun tr => tr.is_bad)).map (fun tr => Tetrahedron.new tr.a tr.b tr.c v))

/-- Fallible variant of `tetrahedralizeWith`: the outer `Option` is `none`
exactly when some indexing panic would be reachable; the inner value is the
function's result. -/
def tetrahedralizeChecked (insph : Tetrahedron → Vertex → Bool)
    (vertices : List Vertex) : Option (Option (Finset Edge)) :=
  match vertices with
  | [] => some none
  | v :: rest =>
    (make_super_tetrahedronChecked (v :: rest)).bind (fun st =>
      ((v :: rest).foldl (fun acc w => acc.bind (fun ts => stepChecked insph ts w))
          (some [st])).map (fun tets =>
        let final := tets.filter (fun t =>
          !(t.contains_vertex st.a || t.contains_vertex st.b
            || t.contains_vertex st.c || t.contains_vertex st.d))
        some (final.foldl (fun s t => (sixEdges t).foldl (fun s2 e => insert e s2) s) ∅)))

/-- A concrete in-sphere predicate (a lookup table on cells and query points)
used to drive `tetrahedralizeWith` through a four-point insertion chain. -/
def scriptPred (t : Tetrahedron) (v : Vertex) : Bool :=
  decide (((t.a, t.b, t.c, t.d), v) ∈
    [((Vertex.new (-1) (-1) (-1), Vertex.new 3 (-1) (-1), Vertex.new (-1) 3 (-1),
        Vertex.new (-1) (-1) 3), Vertex.new 0 0 0),
     ((Vertex.new (-1) (-1) (-1), Vertex.new 3 (-1) (-1), Vertex.new (-1) 3 (-1),
        Vertex.new 0 0 0), Vertex.new 1 0 0),
     ((Vertex.new 3 (-1) (-1), Vertex.new (-1) 3 (-1), Vertex.new 0 0 0,
        Vertex.new 1 0 0), Vertex.new 0 1 0),
     ((Vertex.new (-1) 3 (-1), Vertex.new 0 0 0, Vertex.new 1 0 0,
        Vertex.new 0 1 0), Vertex.new 0 0 1)])

/-! ### Basic facts about the fuzzy comparator and the marking helpers -/

/-- Fuzzy equality is reflexive: the squared distance of a point to itself is
`0 < 1/100`. -/
theorem vertex_almost_equal_refl (v : Vertex) : v.almost_equal v = true := by
  simp [Vertex.almost_equal]

/-- Fuzzy triangle equality is reflexive. -/
theorem triangle_almost_equal_refl (t : Triangle) : t.almost_equal t = true := by
  simp [Triangle.almost_equal, vertex_almost_equal_refl]

theorem flagT_flagT (t : Triangle) : flagT (flagT t) = flagT t := rfl

theorem flagT_of_bad {t : Triangle} (h : t.is_bad = true) : flagT t = t := by
  cases t
  simp_all [flagT]

theorem flagT_is_bad (t : Triangle) : (flagT t).is_bad = true := rfl

theorem map_flagT_map_flagT (l : List Triangle) : (l.map flagT).map flagT = l.map flagT := by
  induction l with
  | nil => rfl
  | cons x xs ih => simp [ih, flagT_flagT]

/-- Writing back the value already stored at an index leaves a list
unchanged. -/
theorem set_getElem?_eq {α : Type _} : ∀ (l : List α) (n : Nat) (a : α),
    l[n]? = some a → l.set n a = l
  | [], n, a, h => by simp at h
  | x :: xs, 0, a, h => by
    simp at h
    simp [List.set, h]
  | x :: xs, n + 1, a, h => by
    simp at h
    simp [List.set]
    exact set_getElem?_eq xs n a h

/-! ### The duplicate-marking loops mark every triangle and change nothing
else -/

theorem markIfDup_map_flagT (l : List Triangle) (i j : Nat) :
    (markIfDup l i j).map flagT = l.map flagT := by
  unfold markIfDup
  cases hi : l[i]? with
  | none => rfl
  | some ti =>
    cases hj : l[j]? with
    | none => rfl
    | some tj =>
      by_cases hc : ti.almost_equal tj
      · simp only [hc, if_true, List.map_set, flagT_flagT]
        have h1 : (l.map flagT).set i (flagT ti) = l.map flagT := by
          apply set_getElem?_eq
          simp [hi]
        rw [h1]
        apply set_getElem?_eq
        simp [hj]
      · simp [hc]

theorem markIfDup_length (l : List Triangle) (i j : Nat) :
    (markIfDup l i j).length = l.length := by
  have h := congrArg List.length (markIfDup_map_flagT l i j)
  simpa using h

theorem markIfDup_bad_at {l : List Triangle} {k : Nat} {t : Triangle}
    (h : l[k]? = some t) (hb : t.is_bad = true) (i j : Nat) :
    ∃ u, (markIfDup l i j)[k]? = some u ∧ u.is_bad = true := by
  unfold markIfDup
  cases hi : l[i]? with
  | none => exact ⟨t, h, hb⟩
  | some ti =>
    cases hj : l[j]? with
    | none => exact ⟨t, h, hb⟩
    | some tj =>
      by_cases hc : ti.almost_equal tj
      · simp only [hc, if_true]
        by_cases hkj : k = j
        · subst hkj
          refine ⟨flagT tj, ?_, rfl⟩
          have hlt : k < l.length := by
            by_contra hge
            rw [List.getElem?_eq_none (by omega)] at hj
            exact Option.noConfusion hj
          rw [List.getElem?_set_self (by simpa using hlt)]
        · by_cases hki : k = i
          · subst hki
            refine ⟨flagT ti, ?_, rfl⟩
            have hlt : k < l.length := by
              by_contra hge
              rw [List.getElem?_eq_none (by omega)] at hi
              exact Option.noConfusion hi
            rw [List.getElem?_set_ne (by omega)]
            rw [List.getElem?_set_self hlt]
          · refine ⟨t, ?_, hb⟩
            rw [List.getElem?_set_ne (by omega), List.getElem?_set_ne (by omega)]
            exact h
      · simp only [hc, if_false]
        exact ⟨t, h, hb⟩

theorem markIfDup_diag {l : List Triangle} {i : Nat} {ti : Triangle}
    (hi : l[i]? = some ti) :
    ∃ u, (markIfDup l i i)[i]? = some u ∧ u.is_bad = true := by
  unfold markIfDup
  rw [hi]
  simp only [triangle_almost_equal_refl, if_true]
  refine ⟨flagT ti, ?_, rfl⟩
  have hlt : i < l.length := by
    by_contra hge
    rw [List.getElem?_eq_none (by omega)] at hi
    exact Option.noConfusion hi
  rw [List.getElem?_set_self (by simpa using hlt)]

/-- Invariants are preserved along a left fold. -/
theorem foldl_preserve {α β : Type _} (P : β → Prop) (f : β → α → β)
    (h : ∀ b a, P b → P (f b a)) : ∀ (xs : List α) (b : β), P b → P (xs.foldl f b)
  | [], _, hb => hb
  | x :: xs, b, hb => foldl_preserve P f h xs (f b x) (h b x hb)

/-- Invariants are preserved along a left fold, with access to membership of
the consumed element. -/
theorem foldl_preserve_mem {α β : Type _} (P : β → Prop) (f : β → α → β) :
    ∀ (xs : List α), (∀ b a, a ∈ xs → P b → P (f b a)) → ∀ b, P b → P (xs.foldl f b)
  | [], _, _, hb => hb
  | x :: xs, h, b, hb =>
    foldl_preserve_mem P f xs (fun b2 a ha hb2 => h b2 a (List.mem_cons_of_mem _ ha) hb2)
      (f b x) (h b x (List.mem_cons_self _ _) hb)

theorem innerFold_establishes (n : Nat) (m : List Triangle) (hm : m.length = n)
    {k : Nat} (hk : k < n) :
    ∃ u, (((List.range n).drop k).foldl (fun m2 j => markIfDup m2 k j) m)[k]? = some u
      ∧ u.is_bad = true := by
  have hdrop : (List.range n).drop k = k :: (List.range n).drop (k + 1) := by
    rw [List.drop_eq_getElem_cons (by simpa using hk)]
    simp
  rw [hdrop, List.foldl_cons]
  have hklt : k < m.length := by omega
  have ht0 : m[k]? = some m[k] := List.getElem?_eq_getElem hklt
  exact foldl_preserve (fun m2 => ∃ u, m2[k]? = some u ∧ u.is_bad = true)
    (fun m2 j => markIfDup m2 k j)
    (fun m2 j h => by
      obtain ⟨u, hu, hub⟩ := h
      exact markIfDup_bad_at hu hub k j) _ _ (markIfDup_diag ht0)

theorem innerFold_preserves (i : Nat) (js : List Nat) (m : List Triangle) {k : Nat}
    (h : ∃ u, m[k]? = some u ∧ u.is_bad = true) :
    ∃ u, (js.foldl (fun m2 j => markIfDup m2 i j) m)[k]? = some u ∧ u.is_bad = true :=
  foldl_preserve (fun m2 => ∃ u, m2[k]? = some u ∧ u.is_bad = true)
    (fun m2 j => markIfDup m2 i j)
    (fun m2 j h2 => by
      obtain ⟨u, hu, hub⟩ := h2
      exact markIfDup_bad_at hu hub i j) js m h

theorem innerFold_length (i : Nat) (js : List Nat) (m : List Triangle) :
    (js.foldl (fun m2 j => markIfDup m2 i j) m).length = m.length := by
  induction js generalizing m with
  | nil => rfl
  | cons j rest ih => rw [List.foldl_cons, ih, markIfDup_length]

theorem outerFold_bad (n : Nat) :
    ∀ (js : List Nat) (m : List Triangle), m.length = n → ∀ {k : Nat}, k < n →
      (k ∈ js ∨ ∃ u, m[k]? = some u ∧ u.is_bad = true) →
      ∃ u, (js.foldl
          (fun acc i => ((List.range n).drop i).foldl (fun m2 j => markIfDup m2 i j) acc)
          m)[k]? = some u ∧ u.is_bad = true := by
  intro js
  induction js with
  | nil =>
    intro m hm k hk h
    rcases h with h | h
    · simp at h
    · exact h
  | cons i rest ih =>
    intro m hm k hk h
    rw [List.foldl_cons]
    have hm1len : (((List.range n).drop i).foldl (fun m2 j => markIfDup m2 i j) m).length = n := by
      rw [innerFold_length]
      exact hm
    apply ih _ hm1len hk
    rcases h with hmem | hbad
    · rcases List.mem_cons.mp hmem with rfl | hrest
      · right
        exact innerFold_establishes n m hm hk
      · left
        exact hrest
    · right
      exact innerFold_preserves i _ m hbad

theorem dedup_map_flagT (l : List Triangle) : (dedup l).map flagT = l.map flagT := by
  unfold dedup
  exact foldl_preserve (fun m => m.map flagT = l.map flagT)
    (fun acc i => ((List.range l.length).drop i).foldl (fun m2 j => markIfDup m2 i j) acc)
    (fun m i hm => foldl_preserve (fun m2 => m2.map flagT = l.map flagT)
      (fun m2 j => markIfDup m2 i j)
      (fun m2 j hm2 => by
        show (markIfDup m2 i j).map flagT = l.map flagT
        rw [markIfDup_map_flagT]
        exact hm2) _ m hm) _ l rfl

theorem dedup_length (l : List Triangle) : (dedup l).length = l.length := by
  have h := congrArg List.length (dedup_map_flagT l)
  simpa using h

theorem dedup_bad_at (l : List Triangle) {k : Nat} (hk : k < l.length) :
    ∃ u, (dedup l)[k]? = some u ∧ u.is_bad = true := by
  unfold dedup
  exact outerFold_bad l.length (List.range l.length) l rfl hk (Or.inl (List.mem_range.mpr hk))

/-- The duplicate-marking loops mark EVERY triangle: the inner loop starts at
`j = i`, every triangle is fuzzy-equal to itself, and nothing else changes. -/
theorem dedup_eq_map (l : List Triangle) : dedup l = l.map flagT := by
  apply List.ext_getElem?
  intro k
  by_cases hk : k < l.length
  · obtain ⟨u, hu, hub⟩ := dedup_bad_at l hk
    have h2 : ((dedup l).map flagT)[k]? = (l.map flagT)[k]? := by rw [dedup_map_flagT]
    rw [List.getElem?_map, hu] at h2
    simp only [Option.map_some'] at h2
    rw [hu, ← h2, flagT_of_bad hub]
  · have h1 : (dedup l)[k]? = none := List.getElem?_eq_none (by rw [dedup_length]; omega)
    have h2 : (l.map flagT)[k]? = none := List.getElem?_eq_none (by simp; omega)
    rw [h1, h2]

/-! ### Characterisation of one insertion step -/

theorem stepPair_eq (insph : Tetrahedron → Vertex → Bool) (v : Vertex) :
    ∀ (tets : List Tetrahedron) (accT : List Tetrahedron) (X : List Triangle),
      tets.foldl (stepAux insph v) (accT, X.map flagT)
        = (accT ++ tets.map (markIf insph v), (X ++ badFaces insph v tets).map flagT)
  | [], accT, X => by simp [badFaces]
  | t :: rest, accT, X => by
    have hstep : stepAux insph v (accT, X.map flagT) t
        = (accT ++ [markIf insph v t],
            (X ++ (if insph t v then facesOf t else [])).map flagT) := by
      unfold stepAux markIf
      by_cases h : insph t v
      · simp only [h, if_true]
        rw [dedup_eq_map]
        simp [map_flagT_map_flagT, flagT_flagT]
      · simp only [h, if_false]
        rw [dedup_eq_map]
        simp [map_flagT_map_flagT, flagT_flagT]
    rw [List.foldl_cons, hstep, stepPair_eq insph v rest _ _]
    have hbf : badFaces insph v (t :: rest)
        = (if insph t v then facesOf t else []) ++ badFaces insph v rest := by
      simp [badFaces]
    rw [hbf]
    simp [List.append_assoc]

theorem stepTets_eq (insph : Tetrahedron → Vertex → Bool) (tets : List Tetrahedron)
    (v : Vertex) : stepTets insph tets v = tets.map (markIf insph v) := by
  unfold stepTets
  have h := stepPair_eq insph v tets [] []
  simp only [List.map_nil] at h
  rw [h]
  simp

theorem stepTris_eq (insph : Tetrahedron → Vertex → Bool) (tets : List Tetrahedron)
    (v : Vertex) : stepTris insph tets v = (badFaces insph v tets).map flagT := by
  unfold stepTris
  have h := stepPair_eq insph v tets [] []
  simp only [List.map_nil] at h
  rw [h]
  simp

theorem filter_bad_map_flagT (X : List Triangle) :
    (X.map flagT).filter (fun tr => tr.is_bad) = X.map flagT := by
  induction X with
  | nil => rfl
  | cons x xs ih => simp [List.filter_cons, flagT_is_bad, ih]

theorem step_eq (insph : Tetrahedron → Vertex → Bool) (tets : List Tetrahedron)
    (v : Vertex) :
    step insph tets v
      = (tets.map (markIf insph v)).filter (fun t => t.is_bad)
        ++ (badFaces insph v tets).map (fun tr => Tetrahedron.new tr.a tr.b tr.c v) := by
  unfold step
  rw [stepTets_eq, stepTris_eq, filter_bad_map_flagT, List.map_map]
  rfl

theorem badFaces_length (insph : Tetrahedron → Vertex → Bool) (v : Vertex)
    (tets : List Tetrahedron) :
    (badFaces insph v tets).length = 4 * (tets.filter (fun t => insph t v)).length := by
  induction tets with
  | nil => rfl
  | cons t rest ih =>
    by_cases h : insph t v <;>
      simp [badFaces, h, List.filter_cons, facesOf] <;>
      simp [badFaces, facesOf] at ih <;>
      omega

/-! ### Vertex-provenance invariant and edge-set membership -/

theorem tetVerts_markIf (insph : Tetrahedron → Vertex → Bool) (v : Vertex)
    (t : Tetrahedron) : tetVerts (markIf insph v t) = tetVerts t := by
  unfold markIf
  by_cases h : insph t v <;> simp [h, tetVerts]

theorem facesOf_verts {t0 : Tetrahedron} {tr : Triangle} (h : tr ∈ facesOf t0) :
    tr.a ∈ tetVerts t0 ∧ tr.b ∈ tetVerts t0 ∧ tr.c ∈ tetVerts t0 := by
  simp only [facesOf, List.mem_cons, List.not_mem_nil, or_false] at h
  rcases h with rfl | rfl | rfl | rfl <;> simp [Triangle.new, tetVerts]

theorem badFaces_mem {insph : Tetrahedron → Vertex → Bool} {v : Vertex}
    {tets : List Tetrahedron} {tr : Triangle} (h : tr ∈ badFaces insph v tets) :
    ∃ t0 ∈ tets, tr ∈ facesOf t0 := by
  simp only [badFaces, List.mem_flatMap] at h
  obtain ⟨t0, ht0, htr⟩ := h
  by_cases hc : insph t0 v
  · rw [hc] at htr
    simp at htr
    exact ⟨t0, ht0, htr⟩
  · simp [hc] at htr

/-- Every vertex of every cell produced by one insertion step comes from a
cell already present or is the inserted vertex. -/
theorem step_verts (insph : Tetrahedron → Vertex → Bool) (tets : List Tetrahedron)
    (v : Vertex) (S : Vertex → Prop)
    (hT : ∀ t ∈ tets, ∀ w ∈ tetVerts t, S w) (hv : S v) :
    ∀ t ∈ step insph tets v, ∀ w ∈ tetVerts t, S w := by
  rw [step_eq]
  intro t ht w hw
  rcases List.mem_append.mp ht with h1 | h2
  · have h1m := List.mem_filter.mp h1
    obtain ⟨t0, ht0, rfl⟩ := List.mem_map.mp h1m.1
    rw [tetVerts_markIf] at hw
    exact hT t0 ht0 w hw
  · obtain ⟨tr, htr, rfl⟩ := List.mem_map.mp h2
    obtain ⟨t0, ht0, hface⟩ := badFaces_mem htr
    obtain ⟨ha, hb, hc⟩ := facesOf_verts hface
    simp only [Tetrahedron.new, tetVerts, List.mem_cons, List.not_mem_nil, or_false] at hw
    rcases hw with rfl | rfl | rfl | rfl
    · exact hT t0 ht0 _ ha
    · exact hT t0 ht0 _ hb
    · exact hT t0 ht0 _ hc
    · exact hv

theorem mem_foldl_insert {α : Type _} [DecidableEq α] :
    ∀ (xs : List α) (s : Finset α) (e : α),
      e ∈ xs.foldl (fun s2 x => insert x s2) s ↔ e ∈ s ∨ e ∈ xs
  | [], s, e => by simp
  | x :: xs, s, e => by
    rw [List.foldl_cons, mem_foldl_insert xs _ e]
    simp [Finset.mem_insert]
    tauto

theorem mem_edges_foldl :
    ∀ (L : List Tetrahedron) (s0 : Finset Edge) (e : Edge),
      e ∈ L.foldl (fun s t => (sixEdges t).foldl (fun s2 e2 => insert e2 s2) s) s0
        ↔ e ∈ s0 ∨ ∃ t ∈ L, e ∈ sixEdges t
  | [], s0, e => by simp
  | t :: L, s0, e => by
    rw [List.foldl_cons, mem_edges_foldl L _ e, mem_foldl_insert]
    simp
    tauto

theorem sixEdges_verts {t : Tetrahedron} {e : Edge} (h : e ∈ sixEdges t) :
    e.a ∈ tetVerts t ∧ e.b ∈ tetVerts t := by
  simp only [sixEdges, List.mem_cons, List.not_mem_nil, or_false] at h
  rcases h with rfl | rfl | rfl | rfl | rfl | rfl <;> simp [Edge.new, tetVerts]

/-- A cell whose `contains_vertex` test against `c` is `false` has no vertex
structurally equal to `c` (fuzzy equality is reflexive). -/
theorem contains_vertex_false {t : Tetrahedron} {c : Vertex}
    (h : t.contains_vertex c = false) : ∀ w ∈ tetVerts t, w ≠ c := by
  simp only [Tetrahedron.contains_vertex, Bool.or_eq_false_iff] at h
  obtain ⟨⟨⟨ha, hb⟩, hc⟩, hd⟩ := h
  intro w hw heq
  subst heq
  simp only [tetVerts, List.mem_cons, List.not_mem_nil, or_false] at hw
  rcases hw with h1 | h1 | h1 | h1
  · rw [h1] at ha
    simp [vertex_almost_equal_refl] at ha
  · rw [h1] at hb
    simp [vertex_almost_equal_refl] at hb
  · rw [h1] at hc
    simp [vertex_almost_equal_refl] at hc
  · rw [h1] at hd
    simp [vertex_almost_equal_refl] at hd

/-! ### The bounding-box loop computes coordinatewise minima and maxima -/

theorem updMinMax_char (mn mx p : ℚ) (h : mn ≤ mx) :
    updMinMax mn mx p = (min mn p, max mx p) := by
  unfold updMinMax
  split_ifs with h1 h2
  · rw [min_eq_right h1.le, max_eq_left (by linarith)]
  · rw [min_eq_left (by linarith), max_eq_right h2.le]
  · rw [min_eq_left (by linarith), max_eq_left (by linarith)]

theorem bboxUpd_char (b : BBox) (v : Vertex) (hx : b.x_min ≤ b.x_max)
    (hy : b.y_min ≤ b.y_max) (hz : b.z_min ≤ b.z_max) :
    bboxUpd b v = ⟨min b.x_min v.x, min b.y_min v.y, min b.z_min v.z,
      max b.x_max v.x, max b.y_max v.y, max b.z_max v.z⟩ := by
  unfold bboxUpd
  rw [updMinMax_char _ _ _ hx, updMinMax_char _ _ _ hy, updMinMax_char _ _ _ hz]

theorem bbox_fold_char (rest : List Vertex) : ∀ (b : BBox),
    b.x_min ≤ b.x_max → b.y_min ≤ b.y_max → b.z_min ≤ b.z_max →
    rest.foldl bboxUpd b =
      ⟨rest.foldl (fun a w => min a w.x) b.x_min,
       rest.foldl (fun a w => min a w.y) b.y_min,
       rest.foldl (fun a w => min a w.z) b.z_min,
       rest.foldl (fun a w => max a w.x) b.x_max,
       rest.foldl (fun a w => max a w.y) b.y_max,
       rest.foldl (fun a w => max a w.z) b.z_max⟩ := by
  induction rest with
  | nil =>
    intro b hx hy hz
    rfl
  | cons w ws ih =>
    intro b hx hy hz
    rw [List.foldl_cons, bboxUpd_char b w hx hy hz]
    exact ih _
      (le_trans (min_le_left _ _) (le_trans hx (le_max_left _ _)))
      (le_trans (min_le_left _ _) (le_trans hy (le_max_left _ _)))
      (le_trans (min_le_left _ _) (le_trans hz (le_max_left _ _)))

theorem make_super_is_bad (l : List Vertex) : (make_super_tetrahedron l).is_bad = false := by
  cases l <;> rfl

/-! ### The fallible variants never return `none`: all indexing is in
bounds -/

theorem markIfDupChecked_eq {l : List Triangle} {i j : Nat} (hi : i < l.length)
    (hj : j < l.length) : markIfDupChecked l i j = some (markIfDup l i j) := by
  unfold markIfDupChecked markIfDup
  rw [List.getElem?_eq_getElem hi, List.getElem?_eq_getElem hj]

theorem innerChecked_eq (n i : Nat) (hi : i < n) :
    ∀ (js : List Nat), (∀ x ∈ js, x < n) → ∀ (m : List Triangle), m.length = n →
      js.foldl (fun acc2 j => acc2.bind (fun m2 => markIfDupChecked m2 i j)) (some m)
        = some (js.foldl (fun m2 j => markIfDup m2 i j) m)
  | [], _, m, _ => rfl
  | j :: rest, hjs, m, hm => by
    rw [List.foldl_cons, List.foldl_cons]
    simp only [Option.some_bind]
    rw [markIfDupChecked_eq (by omega) (by rw [hm]; exact hjs j (List.mem_cons_self _ _))]
    exact innerChecked_eq n i hi rest
      (fun x hx => hjs x (List.mem_cons_of_mem _ hx)) _
      (by rw [markIfDup_length]; exact hm)

theorem outerChecked_eq (n : Nat) :
    ∀ (js : List Nat), (∀ x ∈ js, x < n) → ∀ (m : List Triangle), m.length = n →
      js.foldl (fun acc i => ((List.range n).drop i).foldl
          (fun acc2 j => acc2.bind (fun m2 => markIfDupChecked m2 i j)) acc) (some m)
        = some (js.foldl (fun acc i => ((List.range n).drop i).foldl
            (fun m2 j => markIfDup m2 i j) acc) m)
  | [], _, _, _ => rfl
  | i :: rest, hjs, m, hm => by
    rw [List.foldl_cons, List.foldl_cons]
    have hi : i < n := hjs i (List.mem_cons_self _ _)
    have hdropmem : ∀ x ∈ (List.range n).drop i, x < n := fun x hx =>
      List.mem_range.mp (List.mem_of_mem_drop hx)
    rw [innerChecked_eq n i hi _ hdropmem m hm]
    exact outerChecked_eq n rest (fun x hx => hjs x (List.mem_cons_of_mem _ hx)) _
      (by rw [innerFold_length]; exact hm)

theorem dedupChecked_eq (l : List Triangle) : dedupChecked l = some (dedup l) := by
  unfold dedupChecked dedup
  exact outerChecked_eq l.length (List.range l.length)
    (fun x hx => List.mem_range.mp hx) l rfl

theorem stepFoldChecked_eq (insph : Tetrahedron → Vertex → Bool) (v : Vertex) :
    ∀ (tets : List Tetrahedron) (a : List Tetrahedron × List Triangle),
      tets.foldl (stepAuxChecked insph v) (some a) = some (tets.foldl (stepAux insph v) a)
  | [], _ => rfl
  | t :: rest, a => by
    rw [List.foldl_cons, List.foldl_cons]
    have h1 : stepAuxChecked insph v (some a) t = some (stepAux insph v a t) := by
      by_cases h : insph t v <;>
        simp only [stepAuxChecked, stepAux, h, if_true, if_false, Option.some_bind,
          dedupChecked_eq, Option.map_some']
    rw [h1]
    exact stepFoldChecked_eq insph v rest _

theorem stepChecked_eq (insph : Tetrahedron → Vertex → Bool) (tets : List Tetrahedron)
    (v : Vertex) : stepChecked insph tets v = some (step insph tets v) := by
  unfold stepChecked step stepTets stepTris
  rw [stepFoldChecked_eq]
  rfl

/-! ### The claims -/

set_option maxRecDepth 100000 in
unseal Rat.add Rat.sub Rat.mul Rat.inv in
/-- Claim C1: the spec says that after bad-cell identification every cell
marked discarded is removed before rebuilding, so the collection carried into
the next step contains no cell whose circumsphere strictly contained the
inserted point.  The source filter `filter(|t| t.is_bad)` does the opposite:
on the first insertion of `(0,0,0)` into `[(0,0,0),(1,0,0)]` the super
tetrahedron is violated, is marked, and the marked copy is RETAINED in the
collection carried into the next step. -/
theorem claim_C1_discarded_cells_kept :
    Tetrahedron.in_circumsphere
        (make_super_tetrahedron [Vertex.new 0 0 0, Vertex.new 1 0 0]) (Vertex.new 0 0 0) = true
      ∧ { make_super_tetrahedron [Vertex.new 0 0 0, Vertex.new 1 0 0] with is_bad := true }
          ∈ step Tetrahedron.in_circumsphere
              [make_super_tetrahedron [Vertex.new 0 0 0, Vertex.new 1 0 0]]
              (Vertex.new 0 0 0) := by
  decide

set_option maxRecDepth 100000 in
unseal Rat.add Rat.sub Rat.mul Rat.inv in
/-- Claim C2: the spec says a candidate face survives boundary extraction iff
no other distinct candidate face is fuzzy-equal to it, and that a face is
never cancelled against itself.  In the source every face is compared against
itself (`for j in i..`), marked, and the filter then KEEPS marked faces: in
the second insertion step on `[(0,0,0),(1,0,0)]` the candidate list holds the
same face at positions 0 and 4 (a genuine duplicate pair), yet the filter
retains the whole 16-element list and builds a cell from every face. -/
theorem claim_C2_duplicate_faces_survive :
    (stepTris Tetrahedron.in_circumsphere
        (step Tetrahedron.in_circumsphere
          [make_super_tetrahedron [Vertex.new 0 0 0, Vertex.new 1 0 0]] (Vertex.new 0 0 0))
        (Vertex.new 1 0 0))[0]?
        = some ⟨Vertex.new (-1) (-1) (-1), Vertex.new 3 (-1) (-1), Vertex.new (-1) 2 (-1), true⟩
      ∧ (stepTris Tetrahedron.in_circumsphere
          (step Tetrahedron.in_circumsphere
            [make_super_tetrahedron [Vertex.new 0 0 0, Vertex.new 1 0 0]] (Vertex.new 0 0 0))
          (Vertex.new 1 0 0))[4]?
        = some ⟨Vertex.new (-1) (-1) (-1), Vertex.new 3 (-1) (-1), Vertex.new (-1) 2 (-1), true⟩
      ∧ Triangle.almost_equal
          ⟨Vertex.new (-1) (-1) (-1), Vertex.new 3 (-1) (-1), Vertex.new (-1) 2 (-1), true⟩
          ⟨Vertex.new (-1) (-1) (-1), Vertex.new 3 (-1) (-1), Vertex.new (-1) 2 (-1), true⟩ = true
      ∧ (stepTris Tetrahedron.in_circumsphere
          (step Tetrahedron.in_circumsphere
            [make_super_tetrahedron [Vertex.new 0 0 0, Vertex.new 1 0 0]] (Vertex.new 0 0 0))
          (Vertex.new 1 0 0)).filter (fun tr => tr.is_bad)
        = stepTris Tetrahedron.in_circumsphere
            (step Tetrahedron.in_circumsphere
              [make_super_tetrahedron [Vertex.new 0 0 0, Vertex.new 1 0 0]] (Vertex.new 0 0 0))
            (Vertex.new 1 0 0)
      ∧ (stepTris Tetrahedron.in_circumsphere
          (step Tetrahedron.in_circumsphere
            [make_super_tetrahedron [Vertex.new 0 0 0, Vertex.new 1 0 0]] (Vertex.new 0 0 0))
          (Vertex.new 1 0 0)).length = 16 := by
  decide

set_option maxRecDepth 100000 in
unseal Rat.add Rat.sub Rat.mul Rat.inv in
/-- Claim C3 counterexample: on `[(0,0,0),(1,0,0)]` the cell built by the
source differs from the cell described by the claim (the claim offsets the
three non-corner vertices from the MINIMUM corner by `d`; the source uses the
maximum), and on `[(0,0,0),(1,1,1)]` the input point `(1,1,1)` — a corner of
the bounding box — is NOT strictly inside the built cell. -/
theorem claim_C3_counterexample :
    make_super_tetrahedron [Vertex.new 0 0 0, Vertex.new 1 0 0]
        ≠ superTetraSpecC3 [Vertex.new 0 0 0, Vertex.new 1 0 0]
      ∧ ¬ strictlyInsideTet (make_super_tetrahedron [Vertex.new 0 0 0, Vertex.new 1 1 1])
          (Vertex.new 1 1 1) := by
  decide

/-- Claim C3 amended: for every non-empty input, `make_super_tetrahedron`
returns the cell with vertices `(min - 1)` on all axes and, per axis, a
vertex with coordinate `max + d` on that axis (`d` twice the largest box
extent) and `min - 1` on the other two; no containment of the bounding box
is guaranteed. -/
theorem claim_C3_amended (v : Vertex) (rest : List Vertex) :
    make_super_tetrahedron (v :: rest)
      = (let mnx := rest.foldl (fun a w => min a w.x) v.x
         let mny := rest.foldl (fun a w => min a w.y) v.y
         let mnz := rest.foldl (fun a w => min a w.z) v.z
         let mxx := rest.foldl (fun a w => max a w.x) v.x
         let mxy := rest.foldl (fun a w => max a w.y) v.y
         let mxz := rest.foldl (fun a w => max a w.z) v.z
         let d := max (mxx - mnx) (max (mxy - mny) (mxz - mnz)) * 2
         Tetrahedron.new ⟨mnx - 1, mny - 1, mnz - 1⟩ ⟨mxx + d, mny - 1, mnz - 1⟩
           ⟨mnx - 1, mxy + d, mnz - 1⟩ ⟨mnx - 1, mny - 1, mxz + d⟩) := by
  show (let b := rest.foldl bboxUpd ⟨v.x, v.y, v.z, v.x, v.y, v.z⟩
        let dx := b.x_max - b.x_min
        let dy := b.y_max - b.y_min
        let dz := b.z_max - b.z_min
        let d_max := max dx (max dy dz) * 2
        Tetrahedron.new
          ⟨b.x_min - 1, b.y_min - 1, b.z_min - 1⟩
          ⟨b.x_max + d_max, b.y_min - 1, b.z_min - 1⟩
          ⟨b.x_min - 1, b.y_max + d_max, b.z_min - 1⟩
          ⟨b.x_min - 1, b.y_min - 1, b.z_max + d_max⟩) = _
  rw [bbox_fold_char rest ⟨v.x, v.y, v.z, v.x, v.y, v.z⟩ le_rfl le_rfl le_rfl]

/-- Claim C5: `tetrahedralize` returns `none` exactly on the empty input. -/
theorem claim_C5_none_iff_empty (insph : Tetrahedron → Vertex → Bool)
    (l : List Vertex) : tetrahedralizeWith insph l = none ↔ l = [] := by
  cases l <;> simp [tetrahedralizeWith]

/-- Claim C7: the spec intends `Edge(a,b)` and `Edge(b,a)` to be the same
element, but the derived equality and hashing are field-order sensitive: the
two orientations are distinct and a set can hold both. -/
theorem claim_C7_edge_orientation_sensitive :
    Edge.new (Vertex.new 0 0 0) (Vertex.new 1 0 0)
        ≠ Edge.new (Vertex.new 1 0 0) (Vertex.new 0 0 0)
      ∧ ({Edge.new (Vertex.new 0 0 0) (Vertex.new 1 0 0),
          Edge.new (Vertex.new 1 0 0) (Vertex.new 0 0 0)} : Finset Edge).card = 2 := by
  decide

/-- Claim C8: `tetrahedralize` is deterministic — it is a pure function of
the input sequence (and the in-sphere predicate), with no hidden state. -/
theorem claim_C8_deterministic (insph : Tetrahedron → Vertex → Bool)
    (l1 l2 : List Vertex) (h : l1 = l2) :
    tetrahedralizeWith insph l1 = tetrahedralizeWith insph l2 := by
  rw [h]

/-- Witness for claim C8 at the singleton input `(0,0,0)`. -/
theorem claim_C8_witness :
    tetrahedralize [Vertex.new 0 0 0] = tetrahedralize [Vertex.new 0 0 0] :=
  claim_C8_deterministic Tetrahedron.in_circumsphere
    [Vertex.new 0 0 0] [Vertex.new 0 0 0] rfl

/-- Claim C9: after the duplicate-face loops of an insertion step every
candidate triangle is marked `is_bad` (the inner loop starts at `j = i` and
fuzzy equality is reflexive), the `is_bad` filter therefore retains the whole
candidate list — four faces per violated cell — and a new cell is built from
every one of them. -/
theorem claim_C9_every_candidate_face_retained (insph : Tetrahedron → Vertex → Bool)
    (tets : List Tetrahedron) (v : Vertex) :
    ((stepTris insph tets v).all fun tr => tr.is_bad) = true
      ∧ (stepTris insph tets v).filter (fun tr => tr.is_bad) = stepTris insph tets v
      ∧ (stepTris insph tets v).length = 4 * (tets.filter (fun t => insph t v)).length
      ∧ step insph tets v
          = (stepTets insph tets v).filter (fun t => t.is_bad)
            ++ (stepTris insph tets v).map (fun tr => Tetrahedron.new tr.a tr.b tr.c v) := by
  refine ⟨?_, ?_, ?_, ?_⟩
  · rw [stepTris_eq]
    simp [flagT]
  · rw [stepTris_eq]
    exact filter_bad_map_flagT _
  · rw [stepTris_eq, List.length_map]
    exact badFaces_length insph v tets
  · unfold step
    rw [stepTris_eq, filter_bad_map_flagT]

/-- Claim C10: the fallible embedding, in which every slice index of the
source (`vertices[0]`, `triangles[i]`, `triangles[j]`) is bounds-checked,
never signals a panic and agrees with the total embedding on every input and
every in-sphere predicate: no out-of-bounds access is reachable. -/
theorem claim_C10_no_out_of_bounds (insph : Tetrahedron → Vertex → Bool)
    (l : List Vertex) :
    tetrahedralizeChecked insph l = some (tetrahedralizeWith insph l) := by
  cases l with
  | nil => rfl
  | cons v rest =>
    have hfold : ∀ (L : List Vertex) (ts : List Tetrahedron),
        L.foldl (fun acc w => acc.bind fun ts2 => stepChecked insph ts2 w) (some ts)
          = some (L.foldl (step insph) ts) := by
      intro L
      induction L with
      | nil =>
        intro ts
        rfl
      | cons w ws ih =>
        intro ts
        rw [List.foldl_cons, List.foldl_cons, Option.some_bind, stepChecked_eq]
        exact ih _
    unfold tetrahedralizeChecked tetrahedralizeWith make_super_tetrahedronChecked
    dsimp only
    simp only [Option.some_bind]
    rw [hfold]
    rfl

/-- Claim C4: whenever `tetrahedralize` returns an edge set, both endpoints
of every edge are structurally equal to input points, and no corner of the
bounding cell appears as an endpoint (the final filter removes, via
reflexive fuzzy equality, every cell that touches a corner, and every cell
vertex is by construction an input point or a corner). -/
theorem claim_C4_endpoints_from_input (insph : Tetrahedron → Vertex → Bool)
    (l : List Vertex) (s : Finset Edge) (e : Edge)
    (hrun : tetrahedralizeWith insph l = some s) (he : e ∈ s) :
    (e.a ∈ l ∧ e.b ∈ l)
      ∧ e.a ≠ (make_super_tetrahedron l).a ∧ e.a ≠ (make_super_tetrahedron l).b
      ∧ e.a ≠ (make_super_tetrahedron l).c ∧ e.a ≠ (make_super_tetrahedron l).d
      ∧ e.b ≠ (make_super_tetrahedron l).a ∧ e.b ≠ (make_super_tetrahedron l).b
      ∧ e.b ≠ (make_super_tetrahedron l).c ∧ e.b ≠ (make_super_tetrahedron l).d := by
  cases l with
  | nil => simp [tetrahedralizeWith] at hrun
  | cons v0 rest =>
    unfold tetrahedralizeWith at hrun
    dsimp only at hrun
    rw [Option.some.injEq] at hrun
    subst hrun
    rw [mem_edges_foldl] at he
    rcases he with h0 | ⟨t, htF, het⟩
    · simp at h0
    · have htL := (List.mem_filter.mp htF).1
      have hpred := (List.mem_filter.mp htF).2
      have hpred2 : (t.contains_vertex (make_super_tetrahedron (v0 :: rest)).a
          || t.contains_vertex (make_super_tetrahedron (v0 :: rest)).b
          || t.contains_vertex (make_super_tetrahedron (v0 :: rest)).c
          || t.contains_vertex (make_super_tetrahedron (v0 :: rest)).d) = false := by
        simpa using hpred
      rw [Bool.or_eq_false_iff, Bool.or_eq_false_iff, Bool.or_eq_false_iff] at hpred2
      obtain ⟨⟨⟨hca, hcb⟩, hcc⟩, hcd⟩ := hpred2
      have hna := contains_vertex_false hca
      have hnb := contains_vertex_false hcb
      have hnc := contains_vertex_false hcc
      have hnd := contains_vertex_false hcd
      have hprov : ∀ t2 ∈ (v0 :: rest).foldl (step insph)
            [make_super_tetrahedron (v0 :: rest)],
          ∀ w ∈ tetVerts t2,
            w ∈ (v0 :: rest) ∨ w ∈ tetVerts (make_super_tetrahedron (v0 :: rest)) := by
        apply foldl_preserve_mem
          (fun tets => ∀ t2 ∈ tets, ∀ w ∈ tetVerts t2,
            w ∈ (v0 :: rest) ∨ w ∈ tetVerts (make_super_tetrahedron (v0 :: rest)))
          (step insph)
        · intro tets v hv hP
          exact step_verts insph tets v _ hP (Or.inl hv)
        · intro t2 ht2 w hw
          simp only [List.mem_singleton] at ht2
          subst ht2
          exact Or.inr hw
      have hmem : ∀ w ∈ tetVerts t, w ∈ (v0 :: rest) := by
        intro w hw
        rcases hprov t htL w hw with h | h
        · exact h
        · exfalso
          simp only [tetVerts, List.mem_cons, List.not_mem_nil, or_false] at h
          rcases h with rfl | rfl | rfl | rfl
          · exact hna _ hw rfl
          · exact hnb _ hw rfl
          · exact hnc _ hw rfl
          · exact hnd _ hw rfl
      obtain ⟨hea, heb⟩ := sixEdges_verts het
      exact ⟨⟨hmem _ hea, hmem _ heb⟩,
        hna _ hea, hnb _ hea, hnc _ hea, hnd _ hea,
        hna _ heb, hnb _ heb, hnc _ heb, hnd _ heb⟩

set_option maxRecDepth 400000 in
unseal Rat.add Rat.sub Rat.mul Rat.inv in
/-- Witness for claim C4: a four-point run (driven by the concrete predicate
`scriptPred`) returns a non-empty edge set containing the edge
`(0,0,0)-(1,0,0)`, whose endpoints are input points and distinct from all
four corners of the bounding cell. -/
theorem claim_C4_witness :
    ((Edge.new (Vertex.new 0 0 0) (Vertex.new 1 0 0)).a
          ∈ [Vertex.new 0 0 0, Vertex.new 1 0 0, Vertex.new 0 1 0, Vertex.new 0 0 1]
      ∧ (Edge.new (Vertex.new 0 0 0) (Vertex.new 1 0 0)).b
          ∈ [Vertex.new 0 0 0, Vertex.new 1 0 0, Vertex.new 0 1 0, Vertex.new 0 0 1])
      ∧ (Edge.new (Vertex.new 0 0 0) (Vertex.new 1 0 0)).a
          ≠ (make_super_tetrahedron
              [Vertex.new 0 0 0, Vertex.new 1 0 0, Vertex.new 0 1 0, Vertex.new 0 0 1]).a
      ∧ (Edge.new (Vertex.new 0 0 0) (Vertex.new 1 0 0)).a
          ≠ (make_super_tetrahedron
              [Vertex.new 0 0 0, Vertex.new 1 0 0, Vertex.new 0 1 0, Vertex.new 0 0 1]).b
      ∧ (Edge.new (Vertex.new 0 0 0) (Vertex.new 1 0 0)).a
          ≠ (make_super_tetrahedron
              [Vertex.new 0 0 0, Vertex.new 1 0 0, Vertex.new 0 1 0, Vertex.new 0 0 1]).c
      ∧ (Edge.new (Vertex.new 0 0 0) (Vertex.new 1 0 0)).a
          ≠ (make_super_tetrahedron
              [Vertex.new 0 0 0, Vertex.new 1 0 0, Vertex.new 0 1 0, Vertex.new 0 0 1]).d
      ∧ (Edge.new (Vertex.new 0 0 0) (Vertex.new 1 0 0)).b
          ≠ (make_super_tetrahedron
              [Vertex.new 0 0 0, Vertex.new 1 0 0, Vertex.new 0 1 0, Vertex.new 0 0 1]).a
      ∧ (Edge.new (Vertex.new 0 0 0) (Vertex.new 1 0 0)).b
          ≠ (make_super_tetrahedron
              [Vertex.new 0 0 0, Vertex.new 1 0 0, Vertex.new 0 1 0, Vertex.new 0 0 1]).b
      ∧ (Edge.new (Vertex.new 0 0 0) (Vertex.new 1 0 0)).b
          ≠ (make_super_tetrahedron
              [Vertex.new 0 0 0, Vertex.new 1 0 0, Vertex.new 0 1 0, Vertex.new 0 0 1]).c
      ∧ (Edge.new (Vertex.new 0 0 0) (Vertex.new 1 0 0)).b
          ≠ (make_super_tetrahedron
              [Vertex.new 0 0 0, Vertex.new 1 0 0, Vertex.new 0 1 0, Vertex.new 0 0 1]).d :=
  claim_C4_endpoints_from_input scriptPred
    [Vertex.new 0 0 0, Vertex.new 1 0 0, Vertex.new 0 1 0, Vertex.new 0 0 1]
    {Edge.new (Vertex.new 0 0 1) (Vertex.new 0 1 0),
     Edge.new (Vertex.new 0 0 1) (Vertex.new 1 0 0),
     Edge.new (Vertex.new 0 0 1) (Vertex.new 0 0 0),
     Edge.new (Vertex.new 0 1 0) (Vertex.new 0 0 0),
     Edge.new (Vertex.new 1 0 0) (Vertex.new 0 1 0),
     Edge.new (Vertex.new 0 0 0) (Vertex.new 1 0 0)}
    (Edge.new (Vertex.new 0 0 0) (Vertex.new 1 0 0))
    (by decide) (by decide)

/-- Claim C6: on any single-point input the function returns `some` of the
empty edge set (never `none`): whatever the in-sphere predicate says about
the bounding cell, every cell alive at the end touches a bounding-cell
corner and is filtered out. -/
theorem claim_C6_singleton_empty_edges (insph : Tetrahedron → Vertex → Bool)
    (v : Vertex) : tetrahedralizeWith insph [v] = some ∅ := by
  unfold tetrahedralizeWith
  dsimp only
  rw [show List.foldl (step insph) [make_super_tetrahedron [v]] [v]
      = step insph [make_super_tetrahedron [v]] v from rfl, step_eq]
  by_cases h : insph (make_super_tetrahedron [v]) v
  · simp [markIf, h, badFaces, facesOf, Tetrahedron.contains_vertex,
      vertex_almost_equal_refl, Tetrahedron.new, make_super_is_bad, Triangle.new]
  · simp [markIf, h, badFaces, make_super_is_bad]
